import Mathlib

/-!
Verification of the image-gallery scraping script (scrape.py).

The script is embedded shallowly: every pure computation of the script is a
Lean function over Lean strings (Lean 4.14 strings are lists of characters,
matching Python strings as sequences of code points), network responses are an
explicit argument (a function from URL to a fetch result), the images
directory is an explicit list of named files, and the browser page is an
explicit trace of what each scroll iteration can observe.

Python string primitives used by the script (startswith, split, strip,
replace, lower, in, rstrip, sorted, percent-quoting, decimal formatting) are
re-implemented structurally on character lists so that all definitions
evaluate inside the kernel.
-/

/-! ## Character-list models of the Python string primitives -/

/-- Boolean list-prefix test (Python str.startswith on code points). -/
def isPrefixL : List Char → List Char → Bool
  | [], _ => true
  | _ :: _, [] => false
  | a :: as, b :: bs => a = b && isPrefixL as bs

/-- Python substring containment on code-point lists (the `in` operator). -/
def hasSubL (needle : List Char) : List Char → Bool
  | [] => needle.isEmpty
  | c :: cs => isPrefixL needle (c :: cs) || hasSubL needle cs

/-- Python `needle in hay` on strings. -/
def hasSubstr (hay needle : String) : Bool :=
  hasSubL needle.data hay.data

/-- Python str.startswith. -/
def pyStartsWith (s p : String) : Bool :=
  isPrefixL p.data s.data

/-- Python str.split(sep) for a one-character separator. -/
def splitOnChar (sep : Char) : List Char → List (List Char)
  | [] => [[]]
  | c :: cs =>
    let r := splitOnChar sep cs
    if c = sep then [] :: r
    else
      match r with
      | [] => [[c]]
      | h :: t => (c :: h) :: t

/-- ASCII whitespace recognized by Python str.strip(). -/
def isSpace (c : Char) : Bool :=
  c = ' ' || c = '\t' || c = '\n' || c = '\r' || c = '\x0b' || c = '\x0c'

/-- Python str.strip(): drop leading and trailing whitespace. -/
def stripChars (l : List Char) : List Char :=
  ((l.dropWhile isSpace).reverse.dropWhile isSpace).reverse

/-- Fuelled worker for Python str.replace: non-overlapping, left to right.
The fuel is an upper bound on the number of characters consumed; the callers
pass the length of the subject string. -/
def replaceSubAux (pat rep : List Char) : Nat → List Char → List Char
  | 0, l => l
  | _ + 1, [] => []
  | fuel + 1, c :: cs =>
    if isPrefixL pat (c :: cs) && !pat.isEmpty then
      rep ++ replaceSubAux pat rep fuel ((c :: cs).drop pat.length)
    else
      c :: replaceSubAux pat rep fuel cs

/-- Python str.replace(pat, rep). -/
def pyReplace (s pat rep : String) : String :=
  String.mk (replaceSubAux pat.data rep.data s.data.length s.data)

/-- ASCII lowering of one character (agrees with Python str.lower on ASCII). -/
def lowerChar (c : Char) : Char :=
  if 65 ≤ c.toNat ∧ c.toNat ≤ 90 then Char.ofNat (c.toNat + 32) else c

/-- Python str.lower(). -/
def pyLower (s : String) : String :=
  String.mk (s.data.map lowerChar)

/-- Python str.rstrip(chars): drop trailing characters drawn from a set. -/
def rstripSet (s : String) (cs : List Char) : String :=
  String.mk ((s.data.reverse.dropWhile (fun c => cs.contains c)).reverse)

/-- Code-point lexicographic order on character lists, as Python compares
strings. -/
def charListLe : List Char → List Char → Bool
  | [], _ => true
  | _ :: _, [] => false
  | a :: as, b :: bs =>
    if a.toNat < b.toNat then true
    else if b.toNat < a.toNat then false
    else charListLe as bs

/-- Python string comparison a ≤ b. -/
def strLe (a b : String) : Bool :=
  charListLe a.data b.data

/-- Insert one string into a list sorted by strLe. -/
def insertStr (x : String) : List String → List String
  | [] => [x]
  | y :: ys => if strLe x y then x :: y :: ys else y :: insertStr x ys

/-- Python sorted() on strings: ascending code-point order. -/
def sortStrs (l : List String) : List String :=
  l.foldr insertStr []

/-- Index of the last '.' in a character list, if any (str.rfind('.')). -/
def rfindDot : List Char → Option Nat
  | [] => none
  | c :: cs =>
    match rfindDot cs with
    | some i => some (i + 1)
    | none => if c = '.' then some 0 else none

/-- Python pathlib suffix of a file name: the part of the name from its last
dot on, but empty when the last dot is the first or the last character. -/
def pySuffix (s : String) : String :=
  match rfindDot s.data with
  | none => ""
  | some i =>
    if 0 < i ∧ i + 1 < s.data.length then String.mk (s.data.drop i) else ""

/-- The decimal digit character for a value below ten. -/
def digitChar (n : Nat) : Char :=
  Char.ofNat (48 + n)

/-- Fuelled decimal digit expansion; the fuel bounds the input strictly. -/
def natDigitsAux : Nat → Nat → List Char
  | 0, _ => []
  | fuel + 1, n =>
    if n < 10 then [digitChar n]
    else natDigitsAux fuel (n / 10) ++ [digitChar (n % 10)]

/-- Decimal digits of a natural number, most significant first. -/
def natDigits (n : Nat) : List Char :=
  natDigitsAux (n + 1) n

/-- Python format spec 04d: the decimal digits left-padded with '0' to at
least four characters. -/
def pad4 (n : Nat) : List Char :=
  List.replicate (4 - (natDigits n).length) '0' ++ natDigits n

/-- Decimal value of a digit string (ignoring that padding zeros may lead). -/
def valOfDigits (l : List Char) : Nat :=
  l.foldl (fun acc c => 10 * acc + (c.toNat - 48)) 0

/-- The list s, s+1, ..., s+n-1. -/
def natRange (s : Nat) : Nat → List Nat
  | 0 => []
  | n + 1 => s :: natRange (s + 1) n

/-! ## Script constants (scrape.py lines 21-23) -/

/-- IMG_EXTS: recognized gallery image extensions. -/
def IMG_EXTS : List String :=
  [".jpg", ".jpeg", ".png", ".gif", ".webp", ".avif"]

/-- SCROLL_TIMES: fixed number of scroll iterations. -/
def SCROLL_TIMES : Nat := 15

/-- MIN_SIZE: smallest body size saved by the downloader. -/
def MIN_SIZE : Nat := 5000

/-! ## make_url (scrape.py lines 26-29) and urllib.parse.quote -/

/-- UTF-8 encoding of one code point, as Python quote encodes its input. -/
def utf8Bytes (c : Char) : List Nat :=
  let n := c.toNat
  if n < 128 then [n]
  else if n < 2048 then [192 + n / 64, 128 + n % 64]
  else if n < 65536 then [224 + n / 4096, 128 + n / 64 % 64, 128 + n % 64]
  else [240 + n / 262144, 128 + n / 4096 % 64, 128 + n / 64 % 64, 128 + n % 64]

/-- Bytes urllib.parse.quote leaves unescaped with the default safe set:
ASCII letters, digits, underscore, dot, hyphen, tilde and slash. -/
def isQuoteSafe (b : Nat) : Bool :=
  decide (65 ≤ b ∧ b ≤ 90) || decide (97 ≤ b ∧ b ≤ 122) ||
    decide (48 ≤ b ∧ b ≤ 57) || b == 95 || b == 46 || b == 45 || b == 126 || b == 47

/-- Uppercase hexadecimal digit, as urllib.parse.quote emits. -/
def hexDigitChar (n : Nat) : Char :=
  if n < 10 then Char.ofNat (48 + n) else Char.ofNat (55 + n)

/-- Percent-escape one byte unless it is safe. -/
def pctByte (b : Nat) : List Char :=
  if isQuoteSafe b then [Char.ofNat b] else ['%', hexDigitChar (b / 16), hexDigitChar (b % 16)]

/-- Quote one character: escape each byte of its UTF-8 encoding. -/
def quoteChar (c : Char) : List Char :=
  ((utf8Bytes c).map pctByte).flatten

/-- urllib.parse.quote with the default safe set. -/
def pyQuote (s : String) : String :=
  String.mk ((s.data.map quoteChar).flatten)

/-- make_url (scrape.py lines 26-29): pass a URL through on an http prefix,
otherwise build a Google image-search URL around the quoted query. -/
def make_url (query_or_url : String) : String :=
  if pyStartsWith query_or_url "http" then query_or_url
  else "https://www.google.com/search?q=" ++ pyQuote query_or_url ++ "&udm=2"

/-! ## load_firefox_cookies (scrape.py lines 32-47) and main's cookie use -/

/-- A cookie as read from the Firefox profile. -/
structure RawCookie where
  name : String
  value : String
  domain : String
  path : String
deriving DecidableEq

/-- A cookie dict as handed to the browser context. -/
structure Cookie where
  name : String
  value : String
  domain : String
  path : String
deriving DecidableEq

/-- One cookie dict built by load_firefox_cookies: empty domains fall back to
.google.com and empty paths to / (Python truthiness on strings). -/
def normalizeCookie (c : RawCookie) : Cookie :=
  Cookie.mk c.name c.value
    (if c.domain = "" then ".google.com" else c.domain)
    (if c.path = "" then "/" else c.path)

/-- load_firefox_cookies (scrape.py lines 32-47): the cookie-store read is an
explicit argument; any raised exception yields the empty list after a log
line, a successful read yields the normalized cookie dicts. -/
def load_firefox_cookies (store : Except String (List RawCookie)) : List Cookie :=
  match store with
  | Except.error _ => []
  | Except.ok cs => cs.map normalizeCookie

/-- main (scrape.py lines 121-122): the add_cookies calls performed, one call
with the whole list when it is non-empty and none otherwise. -/
def mainAddCookieCalls (cookies : List Cookie) : List (List Cookie) :=
  if cookies.isEmpty then [] else [cookies]

/-! ## collect_image_urls (scrape.py lines 50-80) -/

/-- skip_domains (scrape.py line 52). -/
def skip_domains : List String :=
  ["google.com", "gstatic.com", "googleapis.com", "googleusercontent.com"]

/-- Remainder after an https?:// prefix, trying https first as the regex
engine does with a greedy optional s. -/
def tryHttpRest (l : List Char) : Option (List Char) :=
  if isPrefixL ("https://".data) l then some (l.drop 8)
  else if isPrefixL ("http://".data) l then some (l.drop 7)
  else none

/-- re.search of https?://([^/]+) : the captured host of the leftmost match,
backtracking to later start positions when the host part would be empty. -/
def hostSearch : List Char → Option String
  | [] => none
  | c :: cs =>
    match tryHttpRest (c :: cs) with
    | some rest =>
      let h := rest.takeWhile (fun x => x != '/')
      if h.isEmpty then hostSearch cs else some (String.mk h)
    | none => hostSearch cs

/-- Pattern-2 post-processing (scrape.py lines 66-70): strip trailing
backslash, comma, semicolon and parenthesis, look up the host, and keep the
URL only when the host matches and contains no skipped domain. -/
def processPat2 (m : String) : Option String :=
  let url := rstripSet m ['\\', ',', ';', ')']
  match hostSearch url.data with
  | some host =>
    if skip_domains.any (fun d => hasSubstr host d) then none else some url
  | none => none

/-- Python set.add on the accumulated URL set, modelled as a duplicate-free
list: adding a member is a no-op, otherwise the element is appended. -/
def setAdd (urls : List String) (u : String) : List String :=
  if u ∈ urls then urls else urls ++ [u]

/-- Add every string of a list to the URL set. -/
def addAll (urls : List String) (found : List String) : List String :=
  found.foldl setAdd urls

/-- Add every post-processed pattern-2 match to the URL set. -/
def addPat2 (urls : List String) (ms : List String) : List String :=
  ms.foldl
    (fun acc m =>
      match processPat2 m with
      | some url => setAdd acc url
      | none => acc)
    urls

/-- What one scroll iteration can observe on the page: the capture groups the
pattern-1 regex finds in the rendered markup, the raw matches of the
pattern-2 regex, and whether a Show-more-results control is present. The
markup itself comes from the live browser, so these observations are the
model's inputs. -/
structure PageTrace where
  pat1 : Nat → List String
  pat2 : Nat → List String
  moreBtn : Nat → Bool

/-- The URL-set update of one loop body (scrape.py lines 61-70): pattern-1
captures are added directly, pattern-2 matches are post-processed first. -/
def collectIteration (p1 p2 : List String) (urls : List String) : List String :=
  addPat2 (addAll urls p1) p2

/-- The URL set accumulated after the first i scroll iterations. -/
def collectAfter (page : PageTrace) : Nat → List String
  | 0 => []
  | i + 1 => collectIteration (page.pat1 i) (page.pat2 i) (collectAfter page i)

/-- collect_image_urls (scrape.py lines 50-80): run the full fixed budget of
SCROLL_TIMES iterations and return the accumulated set. -/
def collect_image_urls (page : PageTrace) : List String :=
  collectAfter page SCROLL_TIMES

/-- A browser interaction performed by the collector loop. -/
inductive BrowserAction where
  | pressEnd : BrowserAction
  | waitMs : Nat → BrowserAction
  | getContent : BrowserAction
  | clickMore : BrowserAction
deriving BEq, DecidableEq

/-- The browser interactions of one loop body (scrape.py lines 55-77): press
the End key, wait 2000ms, read the rendered markup, and click the
Show-more-results control followed by a 1500ms wait when it is present. -/
def iterationActions (btn : Bool) : List BrowserAction :=
  [BrowserAction.pressEnd, BrowserAction.waitMs 2000, BrowserAction.getContent] ++
    (if btn then [BrowserAction.clickMore, BrowserAction.waitMs 1500] else [])

/-- The browser interactions of the first n iterations. -/
def collectActionsUpTo (btn : Nat → Bool) : Nat → List BrowserAction
  | 0 => []
  | i + 1 => collectActionsUpTo btn i ++ iterationActions (btn i)

/-- The full interaction trace of collect_image_urls. -/
def collectActions (page : PageTrace) : List BrowserAction :=
  collectActionsUpTo page.moreBtn SCROLL_TIMES

/-! ## download (scrape.py lines 83-103) -/

/-- Outcome of one client.get: an exception anywhere in the per-URL body, or
a response with its body bytes and optional content-type header. -/
inductive FetchResult where
  | err : FetchResult
  | ok : List Nat → Option String → FetchResult

/-- A file written into the images directory: its name and its bytes. -/
structure SavedFile where
  name : String
  content : List Nat
deriving DecidableEq

/-- Allowed extension set of the downloader (scrape.py line 96). -/
def extAllow : List String :=
  ["jpg", "png", "gif", "webp", "avif"]

/-- ct.split("/")[-1].split(";")[0].strip().replace("jpeg", "jpg")
(scrape.py line 95). -/
def extCore (ct : String) : String :=
  pyReplace
    (String.mk (stripChars ((splitOnChar ';' ((splitOnChar '/' ct.data).getLastD [])).headD [])))
    "jpeg" "jpg"

/-- The extension the downloader uses: the processed subtype when it is in
the allowed set, jpg otherwise (scrape.py lines 95-97). -/
def extFromCT (ct : String) : String :=
  if extCore ct ∈ extAllow then extCore ct else "jpg"

/-- The file name f"img_\x7bsaved:04d\x7d.\x7bext\x7d" (scrape.py line 98),
that is img_ then the index zero-padded to four digits, a dot and the
extension. -/
def imgFileName (k : Nat) (ext : String) : String :=
  String.mk ('i' :: 'm' :: 'g' :: '_' :: (pad4 k ++ '.' :: ext.data))

/-- The per-URL loop of download (scrape.py lines 88-102) over the remaining
URLs, with saved the running counter: an exception skips the URL, a body
below MIN_SIZE is skipped, a content-type (defaulting to image/jpeg) without
the substring image is skipped, and otherwise the body is written under the
sequentially numbered name and the counter advances. Returns the final
counter and the writes performed, in order. -/
def downloadGo (fetch : String → FetchResult) : List String → Nat → Nat × List SavedFile
  | [], saved => (saved, [])
  | url :: rest, saved =>
    match fetch url with
    | FetchResult.err => downloadGo fetch rest saved
    | FetchResult.ok content ctHdr =>
      if content.length < MIN_SIZE then downloadGo fetch rest saved
      else
        let ct := ctHdr.getD "image/jpeg"
        if hasSubstr ct "image" = false then downloadGo fetch rest saved
        else
          let ext := extFromCT ct
          let out := downloadGo fetch rest (saved + 1)
          (out.1, SavedFile.mk (imgFileName saved ext) content :: out.2)

/-- download (scrape.py lines 83-103): process the sorted candidate URLs with
the counter starting at zero; the first component is the returned count, the
second the files written. -/
def download (fetch : String → FetchResult) (urls : List String) : Nat × List SavedFile :=
  downloadGo fetch urls 0

/-- dest.write_bytes on the images directory: overwrite the file of that name
when it exists, create it otherwise. -/
def dirWrite (d : List SavedFile) (w : SavedFile) : List SavedFile :=
  if d.any (fun f => f.name == w.name) then
    d.map (fun f => if f.name == w.name then w else f)
  else d ++ [w]

/-- Apply a sequence of writes to a directory state. -/
def applyWrites (d : List SavedFile) (ws : List SavedFile) : List SavedFile :=
  ws.foldl dirWrite d

/-! ## build_html (scrape.py lines 137-181) -/

/-- Whether a directory entry is picked up by the gallery listing:
p.suffix.lower() in IMG_EXTS (scrape.py line 139). -/
def isGalleryImage (name : String) : Bool :=
  IMG_EXTS.contains (pyLower (pySuffix name))

/-- The sorted gallery listing (scrape.py lines 138-140): the names of the
directory entries whose lowered suffix is a recognized image extension, in
ascending order. -/
def galleryImages (d : List SavedFile) : List String :=
  sortStrs ((d.filter (fun f => isGalleryImage f.name)).map SavedFile.name)

/-- One img tag of the gallery (scrape.py lines 145-148). -/
def imgTag (name : String) : String :=
  "    <img src=\"images/" ++ name ++ "\" loading=\"lazy\">"

/-- The fixed HTML template around the image tags (scrape.py lines 150-178).
-/
def htmlDoc (img_tags : String) : String :=
  "<!DOCTYPE html>\n<html lang=\"ar\" dir=\"rtl\">\n<head>\n  <meta charset=\"UTF-8\">\n  <meta name=\"viewport\" content=\"width=device-width, initial-scale=1.0\">\n  <title>Gallery</title>\n  <style>\n    body \x7b margin: 0; background: #111; \x7d\n    .grid \x7b\n      display: grid;\n      grid-template-columns: repeat(auto-fill, minmax(240px, 1fr));\n      gap: 4px;\n      padding: 4px;\n    \x7d\n    img \x7b\n      width: 100%;\n      aspect-ratio: 1;\n      object-fit: cover;\n      display: block;\n    \x7d\n  </style>\n</head>\n<body>\n  <div class=\"grid\">\n"
    ++ img_tags ++ "\n  </div>\n</body>\n</html>\n"

/-- build_html (scrape.py lines 137-181) acting on the images directory and
the index.html slot: with no recognized image in the directory it only logs
and leaves everything untouched, otherwise it writes the rendered gallery
document to index.html. The directory is never modified. -/
def build_html (d : List SavedFile) (indexHtml : Option String) :
    List SavedFile × Option String :=
  let images := galleryImages d
  if images.isEmpty then (d, indexHtml)
  else (d, some (htmlDoc (String.intercalate "\n" (images.map imgTag))))

/-! ## Derived and specification-side definitions -/

/-- The index encoded in a written file name: the decimal value of the
characters after img_ and before the first dot. -/
def extractNum (name : String) : Nat :=
  valOfDigits ((name.data.drop 4).takeWhile (fun c => c != '.'))

/-- Modelled from the spec's words in claim C2: a content-type that is an
image type from the allowlist, that is image/ followed by a subtype whose
processed form is one of the allowed image formats. -/
def specIsImageType (ct : String) : Bool :=
  pyStartsWith ct "image/" && extAllow.contains (extCore ct)

/-- The responses the downloader accepts, in URL order: body present, body at
least MIN_SIZE bytes, and the content-type (defaulting to image/jpeg) holding
the substring image; paired with the extension the downloader infers. -/
def passes (fetch : String → FetchResult) (urls : List String) :
    List (List Nat × String) :=
  urls.filterMap (fun u =>
    match fetch u with
    | FetchResult.err => none
    | FetchResult.ok c ct =>
      if MIN_SIZE ≤ c.length ∧ hasSubstr (ct.getD "image/jpeg") "image" = true then
        some (c, extFromCT (ct.getD "image/jpeg"))
      else none)

/-- The sequentially numbered files the accepted bodies turn into, starting
at a given counter value. -/
def specWrites (saved : Nat) : List (List Nat × String) → List SavedFile
  | [] => []
  | (c, e) :: rest => SavedFile.mk (imgFileName saved e) c :: specWrites (saved + 1) rest

/-! ## Concrete inputs used to exercise the theorems -/

/-- A fetch answering every URL with a MIN_SIZE png response. -/
def pngFetch : String → FetchResult :=
  fun _ => FetchResult.ok (List.replicate MIN_SIZE 7) (some "image/png")

/-- A fetch answering with a MIN_SIZE body of content-type text/imagemap,
which is not an image type but holds the substring image. -/
def mapFetch : String → FetchResult :=
  fun _ => FetchResult.ok (List.replicate MIN_SIZE 0) (some "text/imagemap")

/-- A fetch raising on the URL bad and answering a png elsewhere. -/
def failFetch : String → FetchResult :=
  fun v =>
    if v = "bad" then FetchResult.err
    else FetchResult.ok (List.replicate MIN_SIZE 7) (some "image/png")

/-- An images directory holding one stale image file from an earlier run. -/
def preDir : List SavedFile :=
  [SavedFile.mk "stale.png" [0]]

/-- A page whose every scan yields one pattern-1 URL and nothing else. -/
def pageW : PageTrace :=
  PageTrace.mk (fun _ => ["http://a/x.jpg"]) (fun _ => []) (fun _ => false)

/-! ## Helper lemmas: decimal digits and written file names -/

theorem digitChar_toNat (m : Nat) (h : m < 10) : (digitChar m).toNat = 48 + m := by
  interval_cases m <;> decide

theorem digitChar_ne_dot (m : Nat) (h : m < 10) : (digitChar m != '.') = true := by
  interval_cases m <;> decide

theorem natDigitsAux_digit :
    ∀ fuel n c, c ∈ natDigitsAux fuel n → ∃ m, m < 10 ∧ c = digitChar m := by
  intro fuel
  induction fuel with
  | zero => intro n c hc; simp [natDigitsAux] at hc
  | succ fuel ih =>
    intro n c hc
    by_cases h : n < 10
    · simp [natDigitsAux, h] at hc
      exact ⟨n, h, hc⟩
    · simp [natDigitsAux, h] at hc
      rcases hc with hc | hc
      · exact ih _ _ hc
      · exact ⟨n % 10, Nat.mod_lt _ (by omega), hc⟩

theorem valOfDigits_append_digit (xs : List Char) (c : Char) :
    valOfDigits (xs ++ [c]) = 10 * valOfDigits xs + (c.toNat - 48) := by
  simp [valOfDigits, List.foldl_append]

theorem natDigitsAux_val :
    ∀ fuel n, n < fuel → valOfDigits (natDigitsAux fuel n) = n := by
  intro fuel
  induction fuel with
  | zero => intro n h; omega
  | succ fuel ih =>
    intro n h
    by_cases h10 : n < 10
    · have hd := digitChar_toNat n h10
      simp [natDigitsAux, h10, valOfDigits, hd]
    · have hdiv : n / 10 < fuel := by
        have h2 := Nat.div_lt_self (show 0 < n by omega) (show 1 < 10 by omega)
        omega
      have hm := digitChar_toNat (n % 10) (Nat.mod_lt _ (by omega))
      simp [natDigitsAux, h10, valOfDigits_append_digit, ih _ hdiv, hm]
      omega

theorem valOfDigits_cons_zero (l : List Char) :
    valOfDigits ('0' :: l) = valOfDigits l := rfl

theorem valOfDigits_replicate_zero (m : Nat) (ds : List Char) :
    valOfDigits (List.replicate m '0' ++ ds) = valOfDigits ds := by
  induction m with
  | zero => rfl
  | succ m ih =>
    have h : List.replicate (m + 1) '0' ++ ds = '0' :: (List.replicate m '0' ++ ds) := by
      simp [List.replicate_succ]
    rw [h, valOfDigits_cons_zero, ih]

theorem valOfDigits_pad4 (n : Nat) : valOfDigits (pad4 n) = n := by
  unfold pad4
  rw [valOfDigits_replicate_zero]
  simpa [natDigits] using natDigitsAux_val (n + 1) n (by omega)

theorem pad4_ne_dot (n : Nat) : ∀ c ∈ pad4 n, (c != '.') = true := by
  intro c hc
  unfold pad4 at hc
  rw [List.mem_append] at hc
  rcases hc with hc | hc
  · rw [List.eq_of_mem_replicate hc]; decide
  · obtain ⟨m, hm, rfl⟩ := natDigitsAux_digit _ _ _ (by simpa [natDigits] using hc)
    exact digitChar_ne_dot m hm

theorem takeWhile_append_all (p : Char → Bool) :
    ∀ xs ys : List Char, (∀ c ∈ xs, p c = true) →
      List.takeWhile p (xs ++ ys) = xs ++ List.takeWhile p ys := by
  intro xs
  induction xs with
  | nil => intro ys _; rfl
  | cons a xs ih =>
    intro ys h
    have ha : p a = true := h a (by simp)
    simp only [List.cons_append, List.takeWhile_cons, ha, if_true]
    rw [ih ys (fun c hc => h c (by simp [hc]))]

theorem extractNum_imgFileName (k : Nat) (ext : String) :
    extractNum (imgFileName k ext) = k := by
  unfold extractNum imgFileName
  show valOfDigits
      ((('i' :: 'm' :: 'g' :: '_' :: (pad4 k ++ '.' :: ext.data)).drop 4).takeWhile
        (fun c => c != '.')) = k
  rw [show ('i' :: 'm' :: 'g' :: '_' :: (pad4 k ++ '.' :: ext.data)).drop 4
      = pad4 k ++ '.' :: ext.data from rfl]
  rw [takeWhile_append_all _ _ _ (pad4_ne_dot k)]
  rw [show List.takeWhile (fun c => c != '.') ('.' :: ext.data) = ([] : List Char) from rfl]
  rw [List.append_nil]
  exact valOfDigits_pad4 k

theorem rfindDot_none : ∀ l : List Char, '.' ∉ l → rfindDot l = none := by
  intro l
  induction l with
  | nil => intro _; rfl
  | cons c cs ih =>
    intro h
    have hc : ¬ c = '.' := fun e => h (by simp [e])
    have hcs : rfindDot cs = none := ih (fun m => h (by simp [m]))
    simp [rfindDot, hcs, hc]

theorem rfindDot_append (ys : List Char) (hys : '.' ∉ ys) :
    ∀ xs : List Char, rfindDot (xs ++ '.' :: ys) = some xs.length := by
  intro xs
  induction xs with
  | nil => simp [rfindDot, rfindDot_none ys hys]
  | cons a xs ih => simp [rfindDot, ih]

theorem pySuffix_imgFileName (k : Nat) (ext : String) (h1 : ext.data ≠ [])
    (h2 : '.' ∉ ext.data) :
    pySuffix (imgFileName k ext) = String.mk ('.' :: ext.data) := by
  unfold pySuffix imgFileName
  have hx : ('i' :: 'm' :: 'g' :: '_' :: (pad4 k ++ '.' :: ext.data))
      = ('i' :: 'm' :: 'g' :: '_' :: pad4 k) ++ '.' :: ext.data := by simp
  show (match rfindDot ('i' :: 'm' :: 'g' :: '_' :: (pad4 k ++ '.' :: ext.data)) with
    | none => ""
    | some i =>
      if 0 < i ∧ i + 1 < ('i' :: 'm' :: 'g' :: '_' :: (pad4 k ++ '.' :: ext.data)).length then
        String.mk (('i' :: 'm' :: 'g' :: '_' :: (pad4 k ++ '.' :: ext.data)).drop i)
      else "") = String.mk ('.' :: ext.data)
  rw [hx, rfindDot_append _ h2]
  have hlen : 0 < ('i' :: 'm' :: 'g' :: '_' :: pad4 k).length ∧
      ('i' :: 'm' :: 'g' :: '_' :: pad4 k).length + 1
        < (('i' :: 'm' :: 'g' :: '_' :: pad4 k) ++ '.' :: ext.data).length := by
    have hpos : 0 < ext.data.length := List.length_pos.mpr h1
    simp only [List.length_append, List.length_cons]
    omega
  simp only [hlen, and_self, if_pos]
  rw [List.drop_left]

/-! ## Helper lemmas: natRange -/

theorem natRange_lb : ∀ n s x, x ∈ natRange s n → s ≤ x := by
  intro n
  induction n with
  | zero => intro s x h; simp [natRange] at h
  | succ n ih =>
    intro s x h
    simp only [natRange, List.mem_cons] at h
    rcases h with rfl | h
    · omega
    · have := ih (s + 1) x h
      omega

theorem natRange_nodup : ∀ n s, (natRange s n).Nodup := by
  intro n
  induction n with
  | zero => intro s; simp [natRange]
  | succ n ih =>
    intro s
    rw [natRange, List.nodup_cons]
    refine ⟨fun h => ?_, ih (s + 1)⟩
    have := natRange_lb n (s + 1) s h
    omega

/-! ## Helper lemmas: the downloader -/

theorem downloadGo_spec (fetch : String → FetchResult) :
    ∀ (urls : List String) (saved : Nat),
      downloadGo fetch urls saved
        = (saved + (passes fetch urls).length, specWrites saved (passes fetch urls)) := by
  intro urls
  induction urls with
  | nil => intro saved; simp [downloadGo, passes, specWrites]
  | cons u rest ih =>
    intro saved
    cases hf : fetch u with
    | err => simp [downloadGo, hf, passes, List.filterMap_cons, ih saved]
    | ok c ct =>
      by_cases hlen : c.length < MIN_SIZE
      · have hno : ¬ (MIN_SIZE ≤ c.length ∧ hasSubstr (ct.getD "image/jpeg") "image" = true) :=
          fun hcon => absurd hcon.1 (by omega)
        simp [downloadGo, hf, hlen, passes, List.filterMap_cons, hno, ih saved]
      · cases hB : hasSubstr (ct.getD "image/jpeg") "image" with
        | false =>
          have hno : ¬ (MIN_SIZE ≤ c.length ∧ hasSubstr (ct.getD "image/jpeg") "image" = true) := by
            intro hcon
            rw [hcon.2] at hB
            exact absurd hB (by simp)
          simp [downloadGo, hf, hlen, hB, passes, List.filterMap_cons, hno, ih saved]
        | true =>
          have hyes : MIN_SIZE ≤ c.length ∧ hasSubstr (ct.getD "image/jpeg") "image" = true :=
            ⟨by omega, hB⟩
          simp [downloadGo, hf, hlen, hB, passes, List.filterMap_cons, hyes,
            ih (saved + 1), specWrites]
          omega

theorem specWrites_length : ∀ (l : List (List Nat × String)) (s : Nat),
    (specWrites s l).length = l.length := by
  intro l
  induction l with
  | nil => intro s; rfl
  | cons x rest ih =>
    intro s
    cases x with
    | mk c e => simp [specWrites, ih]

theorem specWrites_map_content : ∀ (l : List (List Nat × String)) (s : Nat),
    (specWrites s l).map SavedFile.content = l.map Prod.fst := by
  intro l
  induction l with
  | nil => intro s; rfl
  | cons x rest ih =>
    intro s
    cases x with
    | mk c e => simp [specWrites, ih]

theorem specWrites_map_extract : ∀ (l : List (List Nat × String)) (s : Nat),
    (specWrites s l).map (fun w => extractNum w.name) = natRange s l.length := by
  intro l
  induction l with
  | nil => intro s; rfl
  | cons x rest ih =>
    intro s
    cases x with
    | mk c e => simp [specWrites, natRange, extractNum_imgFileName, ih]

theorem specWrites_mem : ∀ (l : List (List Nat × String)) (s : Nat) (w : SavedFile),
    w ∈ specWrites s l → ∃ k e c, (c, e) ∈ l ∧ w = SavedFile.mk (imgFileName k e) c := by
  intro l
  induction l with
  | nil => intro s w h; simp [specWrites] at h
  | cons x rest ih =>
    intro s w h
    cases x with
    | mk c e =>
      rw [specWrites, List.mem_cons] at h
      rcases h with rfl | h
      · exact ⟨s, e, c, by simp, rfl⟩
      · obtain ⟨k, e', c', hmem, hw⟩ := ih (s + 1) w h
        exact ⟨k, e', c', by simp [hmem], hw⟩

theorem specWrites_get_name : ∀ (l : List (List Nat × String)) (s k : Nat)
    (h : k < (specWrites s l).length),
    ∃ e c, (c, e) ∈ l ∧ (specWrites s l).get ⟨k, h⟩ = SavedFile.mk (imgFileName (s + k) e) c := by
  intro l
  induction l with
  | nil => intro s k h; simp [specWrites] at h
  | cons x rest ih =>
    intro s k h
    cases x with
    | mk c e =>
      cases k with
      | zero => exact ⟨e, c, by simp, rfl⟩
      | succ k =>
        have h' : k < (specWrites (s + 1) rest).length := by
          have := h
          rw [specWrites, List.length_cons] at this
          omega
        obtain ⟨e', c', hmem, hget⟩ := ih (s + 1) k h'
        refine ⟨e', c', by simp [hmem], ?_⟩
        have hg : (specWrites s ((c, e) :: rest)).get ⟨k + 1, h⟩
            = (specWrites (s + 1) rest).get ⟨k, h'⟩ := rfl
        rw [hg, hget]
        have harith : s + 1 + k = s + (k + 1) := by omega
        rw [harith]

theorem extFromCT_mem (ct : String) : extFromCT ct ∈ extAllow := by
  unfold extFromCT
  split
  · assumption
  · simp [extAllow]

theorem passes_ext_mem (fetch : String → FetchResult) (urls : List String) :
    ∀ x ∈ passes fetch urls, x.2 ∈ extAllow := by
  intro x hx
  simp only [passes, List.mem_filterMap] at hx
  obtain ⟨u, _, hu⟩ := hx
  cases hf : fetch u with
  | err => simp [hf] at hu
  | ok c ct =>
    simp only [hf] at hu
    split at hu
    · injection hu with hu
      rw [show x = (c, extFromCT (ct.getD "image/jpeg")) from hu.symm]
      exact extFromCT_mem _
    · cases hu

theorem specWrites_names_nodup (l : List (List Nat × String)) (s : Nat) :
    ((specWrites s l).map SavedFile.name).Nodup := by
  have h2 : (((specWrites s l).map SavedFile.name).map extractNum).Nodup := by
    rw [List.map_map]
    have h : (specWrites s l).map (extractNum ∘ SavedFile.name)
        = natRange s l.length := specWrites_map_extract l s
    rw [h]
    exact natRange_nodup l.length s
  exact h2.of_map extractNum

theorem downloadGo_skip_err (fetch : String → FetchResult) (u : String)
    (h : fetch u = FetchResult.err) :
    ∀ (pre post : List String) (saved : Nat),
      downloadGo fetch (pre ++ u :: post) saved = downloadGo fetch (pre ++ post) saved := by
  intro pre
  induction pre with
  | nil =>
    intro post saved
    show downloadGo fetch (u :: post) saved = downloadGo fetch post saved
    simp [downloadGo, h]
  | cons a pre ih =>
    intro post saved
    show downloadGo fetch (a :: (pre ++ u :: post)) saved
        = downloadGo fetch (a :: (pre ++ post)) saved
    cases hfa : fetch a with
    | err => simp [downloadGo, hfa, ih]
    | ok c ct => simp [downloadGo, hfa, ih]

/-! ## Helper lemmas: directory writes and the gallery listing -/

theorem applyWrites_fresh : ∀ (ws d : List SavedFile),
    (∀ w ∈ ws, ∀ f ∈ d, ¬ f.name = w.name) → ((ws.map SavedFile.name).Nodup) →
    applyWrites d ws = d ++ ws := by
  intro ws
  induction ws with
  | nil => intro d _ _; simp [applyWrites]
  | cons w ws ih =>
    intro d hfresh hnodup
    have hnd := hnodup
    rw [List.map_cons, List.nodup_cons] at hnd
    obtain ⟨hnotin, hnd2⟩ := hnd
    have hany : d.any (fun f => f.name == w.name) = false := by
      rw [List.any_eq_false]
      intro f hf
      simpa using hfresh w (by simp) f hf
    show applyWrites (dirWrite d w) ws = d ++ w :: ws
    rw [show dirWrite d w = d ++ [w] from by simp [dirWrite, hany]]
    rw [ih (d ++ [w]) ?fresh hnd2]
    · simp
    case fresh =>
      intro w' hw' f hf
      rcases List.mem_append.mp hf with hf | hf
      · exact hfresh w' (by simp [hw']) f hf
      · have hfw : f = w := by simpa using hf
        subst hfw
        intro heq
        exact hnotin (List.mem_map.mpr ⟨w', hw', heq.symm⟩)

theorem mem_insertStr (x y : String) : ∀ l, (y ∈ insertStr x l) ↔ (y = x ∨ y ∈ l) := by
  intro l
  induction l with
  | nil => simp [insertStr]
  | cons a l ih =>
    by_cases h : strLe x a
    · simp [insertStr, h]
    · simp [insertStr, h, ih]
      tauto

theorem mem_sortStrs (y : String) : ∀ l, y ∈ sortStrs l ↔ y ∈ l := by
  intro l
  induction l with
  | nil => simp [sortStrs]
  | cons a l ih =>
    show y ∈ insertStr a (sortStrs l) ↔ y ∈ a :: l
    rw [mem_insertStr]
    simp [ih]

theorem isGalleryImage_imgFileName (k : Nat) (e : String) (he : e ∈ extAllow) :
    isGalleryImage (imgFileName k e) = true := by
  have he' : e = "jpg" ∨ e = "png" ∨ e = "gif" ∨ e = "webp" ∨ e = "avif" := by
    simpa [extAllow] using he
  unfold isGalleryImage
  rcases he' with rfl | rfl | rfl | rfl | rfl <;>
    rw [pySuffix_imgFileName _ _ (by decide) (by decide)] <;> decide

/-! ## Helper lemmas: the URL set and the collector loop -/

theorem mem_setAdd (urls : List String) (u v : String) :
    v ∈ setAdd urls u ↔ v ∈ urls ∨ v = u := by
  unfold setAdd
  by_cases h : u ∈ urls
  · rw [if_pos h]
    constructor
    · exact Or.inl
    · intro hv
      rcases hv with hv | rfl
      · exact hv
      · exact h
  · rw [if_neg h]
    simp

theorem setAdd_nodup (urls : List String) (u : String) (h : urls.Nodup) :
    (setAdd urls u).Nodup := by
  unfold setAdd
  by_cases hm : u ∈ urls
  · rw [if_pos hm]; exact h
  · rw [if_neg hm]
    simp [List.nodup_append, h, hm]

theorem setAdd_superset (urls : List String) (u v : String) (h : v ∈ urls) :
    v ∈ setAdd urls u :=
  (mem_setAdd urls u v).mpr (Or.inl h)

theorem addAll_nodup : ∀ (l urls : List String), urls.Nodup → (addAll urls l).Nodup := by
  intro l
  induction l with
  | nil => intro urls h; exact h
  | cons a l ih =>
    intro urls h
    show (addAll (setAdd urls a) l).Nodup
    exact ih _ (setAdd_nodup _ _ h)

theorem addAll_superset : ∀ (l urls : List String) (v : String),
    v ∈ urls → v ∈ addAll urls l := by
  intro l
  induction l with
  | nil => intro urls v h; exact h
  | cons a l ih =>
    intro urls v h
    show v ∈ addAll (setAdd urls a) l
    exact ih _ _ (setAdd_superset _ _ _ h)

theorem addAll_id : ∀ (l urls : List String), (∀ u ∈ l, u ∈ urls) → addAll urls l = urls := by
  intro l
  induction l with
  | nil => intro urls _; rfl
  | cons a l ih =>
    intro urls h
    show addAll (setAdd urls a) l = urls
    rw [show setAdd urls a = urls from by unfold setAdd; rw [if_pos (h a (by simp))]]
    exact ih urls (fun u hu => h u (by simp [hu]))

theorem addPat2_nodup : ∀ (ms urls : List String), urls.Nodup → (addPat2 urls ms).Nodup := by
  intro ms
  induction ms with
  | nil => intro urls h; exact h
  | cons m ms ih =>
    intro urls h
    cases hp : processPat2 m with
    | none =>
      rw [show addPat2 urls (m :: ms) = addPat2 urls ms from by simp [addPat2, hp]]
      exact ih urls h
    | some url =>
      rw [show addPat2 urls (m :: ms) = addPat2 (setAdd urls url) ms from by simp [addPat2, hp]]
      exact ih _ (setAdd_nodup _ _ h)

theorem addPat2_superset : ∀ (ms urls : List String) (v : String),
    v ∈ urls → v ∈ addPat2 urls ms := by
  intro ms
  induction ms with
  | nil => intro urls v h; exact h
  | cons m ms ih =>
    intro urls v h
    cases hp : processPat2 m with
    | none =>
      rw [show addPat2 urls (m :: ms) = addPat2 urls ms from by simp [addPat2, hp]]
      exact ih urls v h
    | some url =>
      rw [show addPat2 urls (m :: ms) = addPat2 (setAdd urls url) ms from by simp [addPat2, hp]]
      exact ih _ _ (setAdd_superset _ _ _ h)

theorem addPat2_id : ∀ (ms urls : List String),
    (∀ m ∈ ms, ∀ v, processPat2 m = some v → v ∈ urls) → addPat2 urls ms = urls := by
  intro ms
  induction ms with
  | nil => intro urls _; rfl
  | cons m ms ih =>
    intro urls h
    cases hp : processPat2 m with
    | none =>
      rw [show addPat2 urls (m :: ms) = addPat2 urls ms from by simp [addPat2, hp]]
      exact ih urls (fun m' hm' => h m' (by simp [hm']))
    | some url =>
      rw [show addPat2 urls (m :: ms) = addPat2 (setAdd urls url) ms from by simp [addPat2, hp]]
      rw [show setAdd urls url = urls from by
        unfold setAdd; rw [if_pos (h m (by simp) url hp)]]
      exact ih urls (fun m' hm' => h m' (by simp [hm']))

theorem collectAfter_nodup (page : PageTrace) : ∀ i, (collectAfter page i).Nodup := by
  intro i
  induction i with
  | zero => simp [collectAfter]
  | succ i ih =>
    show (collectIteration (page.pat1 i) (page.pat2 i) (collectAfter page i)).Nodup
    unfold collectIteration
    exact addPat2_nodup _ _ (addAll_nodup _ _ ih)

theorem collectAfter_mono (page : PageTrace) (i : Nat) :
    ∀ u ∈ collectAfter page i, u ∈ collectAfter page (i + 1) := by
  intro u hu
  show u ∈ collectIteration (page.pat1 i) (page.pat2 i) (collectAfter page i)
  unfold collectIteration
  exact addPat2_superset _ _ _ (addAll_superset _ _ _ hu)

theorem collectIteration_id (p1 p2 urls : List String) (h1 : ∀ u ∈ p1, u ∈ urls)
    (h2 : ∀ m ∈ p2, ∀ v, processPat2 m = some v → v ∈ urls) :
    collectIteration p1 p2 urls = urls := by
  unfold collectIteration
  rw [addAll_id p1 urls h1]
  exact addPat2_id p2 urls h2

theorem iterationActions_count_pressEnd (b : Bool) :
    (iterationActions b).count BrowserAction.pressEnd = 1 := by
  cases b <;> decide

theorem iterationActions_count_getContent (b : Bool) :
    (iterationActions b).count BrowserAction.getContent = 1 := by
  cases b <;> decide

theorem collectActionsUpTo_pressEnd (btn : Nat → Bool) :
    ∀ n, (collectActionsUpTo btn n).count BrowserAction.pressEnd = n := by
  intro n
  induction n with
  | zero => rfl
  | succ n ih =>
    show ((collectActionsUpTo btn n) ++ iterationActions (btn n)).count BrowserAction.pressEnd
        = n + 1
    rw [List.count_append, ih, iterationActions_count_pressEnd]

theorem collectActionsUpTo_getContent (btn : Nat → Bool) :
    ∀ n, (collectActionsUpTo btn n).count BrowserAction.getContent = n := by
  intro n
  induction n with
  | zero => rfl
  | succ n ih =>
    show ((collectActionsUpTo btn n) ++ iterationActions (btn n)).count BrowserAction.getContent
        = n + 1
    rw [List.count_append, ih, iterationActions_count_getContent]

/-! ## Claim theorems -/

/-- Claim C2, counterexample: a 5000-byte response of content-type
text/imagemap is not an image type from the allowlist, yet download writes a
file for it, because the code only checks that the content-type holds the
substring image. -/
theorem download_writes_nonallowlisted_type :
    (download mapFetch ["u"]).2.map SavedFile.name = ["img_0000.jpg"] ∧
    specIsImageType "text/imagemap" = false := by
  constructor
  · have hS : hasSubstr "text/imagemap" "image" = true := by decide
    have h3 : extFromCT "text/imagemap" = "jpg" := by decide
    have h4 : imgFileName 0 "jpg" = "img_0000.jpg" := by decide
    show (downloadGo mapFetch ["u"] 0).2.map SavedFile.name = ["img_0000.jpg"]
    simp [downloadGo, mapFetch, hS, h3, h4]
  · decide

/-- Claim C2 (amended): for every fetched candidate URL, the downloader
writes the response body to disk exactly when the body is at least MIN_SIZE
bytes and the content-type, which defaults to image/jpeg when the header is
absent, holds the substring image; a response failing either test is skipped
and no file is written for it. The written bodies are precisely the accepted
bodies, in URL order. -/
theorem download_write_iff_size_and_image_substring (fetch : String → FetchResult)
    (urls : List String) :
    (download fetch urls).2.map SavedFile.content
      = urls.filterMap (fun u =>
          match fetch u with
          | FetchResult.err => none
          | FetchResult.ok c ct =>
            if MIN_SIZE ≤ c.length ∧ hasSubstr (ct.getD "image/jpeg") "image" = true then
              some c
            else none) := by
  have hd2 : (download fetch urls).2 = specWrites 0 (passes fetch urls) := by
    rw [show download fetch urls = _ from downloadGo_spec fetch urls 0]
  rw [hd2, specWrites_map_content]
  unfold passes
  rw [List.map_filterMap]
  congr 1
  funext u
  cases hf : fetch u with
  | err => simp [hf]
  | ok c ct =>
    by_cases hc : MIN_SIZE ≤ c.length ∧ hasSubstr (ct.getD "image/jpeg") "image" = true
    · simp [hf, hc]
    · simp [hf, hc]

/-- Claim C4: make_url returns its argument unchanged when it starts with
http, and otherwise wraps the percent-quoted argument in the Google
image-search URL; the prefix test is the only inspection of the input. -/
theorem make_url_passthrough_or_quoted (s : String) :
    (pyStartsWith s "http" = true → make_url s = s) ∧
    (pyStartsWith s "http" = false →
      make_url s = "https://www.google.com/search?q=" ++ pyQuote s ++ "&udm=2") := by
  constructor
  · intro h
    simp [make_url, h]
  · intro h
    simp [make_url, h]

/-- Claim C4, witness: both branches of make_url at concrete inputs. -/
theorem make_url_passthrough_or_quoted_check :
    make_url "http://example.com" = "http://example.com" ∧
    make_url "cat dog" = "https://www.google.com/search?q=" ++ pyQuote "cat dog" ++ "&udm=2" :=
  ⟨(make_url_passthrough_or_quoted "http://example.com").1 (by decide),
    (make_url_passthrough_or_quoted "cat dog").2 (by decide)⟩

/-- The quoting itself on a sample: a space becomes an escaped byte. -/
theorem pyQuote_space_sample : pyQuote "cat dog" = "cat%20dog" := by decide

/-- Claim C5: download returns exactly the number of files it wrote, and the
k-th written file (from zero) is named img_, the index zero-padded to four
digits, a dot and an extension drawn from the allowed set. -/
theorem download_sequential_numbering (fetch : String → FetchResult) (urls : List String) :
    (download fetch urls).1 = (download fetch urls).2.length ∧
    ∀ k (h : k < (download fetch urls).2.length),
      ∃ e, e ∈ extAllow ∧ ((download fetch urls).2.get ⟨k, h⟩).name = imgFileName k e := by
  have hd : download fetch urls
      = (0 + (passes fetch urls).length, specWrites 0 (passes fetch urls)) :=
    downloadGo_spec fetch urls 0
  have hd2 : (download fetch urls).2 = specWrites 0 (passes fetch urls) := by rw [hd]
  constructor
  · rw [hd]
    show 0 + (passes fetch urls).length = (specWrites 0 (passes fetch urls)).length
    rw [specWrites_length]
    omega
  · have key : ∀ (L : List SavedFile), L = specWrites 0 (passes fetch urls) →
        ∀ (k : Nat) (h : k < L.length),
        ∃ e, e ∈ extAllow ∧ (L.get ⟨k, h⟩).name = imgFileName k e := by
      intro L hL k h
      subst hL
      obtain ⟨e, c, hm, hget⟩ := specWrites_get_name (passes fetch urls) 0 k h
      refine ⟨e, passes_ext_mem fetch urls (c, e) hm, ?_⟩
      rw [hget]
      simp
    exact key _ hd2

/-- Evaluation of download on the sample png fetch over two URLs, kept in a
form that never traverses the five-thousand-byte bodies. -/
theorem download_pngFetch_pair :
    download pngFetch ["u", "v"]
      = (2, [SavedFile.mk "img_0000.png" (List.replicate MIN_SIZE 7),
          SavedFile.mk "img_0001.png" (List.replicate MIN_SIZE 7)]) := by
  have hS : hasSubstr "image/png" "image" = true := by decide
  have h3 : extFromCT "image/png" = "png" := by decide
  have h40 : imgFileName 0 "png" = "img_0000.png" := by decide
  have h41 : imgFileName 1 "png" = "img_0001.png" := by decide
  show downloadGo pngFetch ["u", "v"] 0 = _
  simp [downloadGo, pngFetch, hS, h3, h40, h41]

/-- Claim C5, witness: two written files numbered zero and one. -/
theorem download_sequential_numbering_check :
    (download pngFetch ["u", "v"]).1 = (download pngFetch ["u", "v"]).2.length ∧
    ∃ e, e ∈ extAllow ∧
      ((download pngFetch ["u", "v"]).2.get
        ⟨1, by rw [download_pngFetch_pair]; decide⟩).name = imgFileName 1 e :=
  ⟨(download_sequential_numbering pngFetch ["u", "v"]).1,
    (download_sequential_numbering pngFetch ["u", "v"]).2 1
      (by rw [download_pngFetch_pair]; decide)⟩

/-- Claim C7: a URL whose fetch or save raises is skipped and the remaining
URLs are processed exactly as if the failed URL were absent; no exception
escapes download and nothing is retried. -/
theorem download_skips_failed_url (fetch : String → FetchResult) (u : String)
    (pre post : List String) (h : fetch u = FetchResult.err) :
    download fetch (pre ++ u :: post) = download fetch (pre ++ post) :=
  downloadGo_skip_err fetch u h pre post 0

/-- Claim C7, witness: dropping the failing URL bad changes nothing. -/
theorem download_skips_failed_url_check :
    download failFetch ["a", "bad", "c"] = download failFetch ["a", "c"] :=
  download_skips_failed_url failFetch "bad" ["a"] ["c"] (by rfl)

/-- Claim C8: when reading the Firefox cookie store fails, the loader
returns the empty list, and main then behaves exactly as on a successful read
of no cookies: no add_cookies call is made. -/
theorem cookie_failure_no_cookies (e : String) :
    load_firefox_cookies (Except.error e) = [] ∧
    mainAddCookieCalls (load_firefox_cookies (Except.error e))
      = mainAddCookieCalls (load_firefox_cookies (Except.ok [])) :=
  ⟨rfl, rfl⟩

/-- Claim C9: a response without a content-type header is treated as
image/jpeg, passes the image filter, and when large enough is saved with
extension jpg; and any content-type whose processed subtype is outside the
allowed set is saved with the fallback extension jpg. -/
theorem download_ct_default_and_ext_fallback :
    (∀ c : List Nat, MIN_SIZE ≤ c.length →
      download (fun _ => FetchResult.ok c none) ["u"]
        = (1, [SavedFile.mk "img_0000.jpg" c])) ∧
    (∀ (c : List Nat) (ct : String), MIN_SIZE ≤ c.length →
      hasSubstr ct "image" = true → extCore ct ∉ extAllow →
      download (fun _ => FetchResult.ok c (some ct)) ["u"]
        = (1, [SavedFile.mk "img_0000.jpg" c])) := by
  constructor
  · intro c h
    have hn : ¬ c.length < MIN_SIZE := by omega
    have h2 : hasSubstr "image/jpeg" "image" = true := by decide
    have h3 : extFromCT "image/jpeg" = "jpg" := by decide
    have h4 : imgFileName 0 "jpg" = "img_0000.jpg" := by decide
    show downloadGo (fun _ => FetchResult.ok c none) ["u"] 0
        = (1, [SavedFile.mk "img_0000.jpg" c])
    simp [downloadGo, hn, h2, h3, h4]
  · intro c ct h hS hext
    have hn : ¬ c.length < MIN_SIZE := by omega
    have h3 : extFromCT ct = "jpg" := by
      unfold extFromCT
      rw [if_neg hext]
    have h4 : imgFileName 0 "jpg" = "img_0000.jpg" := by decide
    show downloadGo (fun _ => FetchResult.ok c (some ct)) ["u"] 0
        = (1, [SavedFile.mk "img_0000.jpg" c])
    simp [downloadGo, hn, hS, h3, h4]

/-- Claim C9, witness: a headerless response and an image/svg+xml response
both land as img_0000.jpg. -/
theorem download_ct_default_and_ext_fallback_check :
    download (fun _ => FetchResult.ok (List.replicate MIN_SIZE 0) none) ["u"]
      = (1, [SavedFile.mk "img_0000.jpg" (List.replicate MIN_SIZE 0)]) ∧
    download (fun _ => FetchResult.ok (List.replicate MIN_SIZE 0) (some "image/svg+xml")) ["u"]
      = (1, [SavedFile.mk "img_0000.jpg" (List.replicate MIN_SIZE 0)]) :=
  ⟨download_ct_default_and_ext_fallback.1 (List.replicate MIN_SIZE 0) (by simp),
    download_ct_default_and_ext_fallback.2 (List.replicate MIN_SIZE 0) "image/svg+xml"
      (by simp) (by decide) (by decide)⟩

/-- Claim C1, counterexample: with a stale image file already in the images
directory, the gallery built after the run references that file by an img
tag although the download pass never saved it, so the gallery is not a
listing of precisely the saved files. -/
theorem gallery_lists_file_not_saved_by_download :
    galleryImages (applyWrites preDir (download pngFetch ["u"]).2)
      = ["img_0000.png", "stale.png"] ∧
    (download pngFetch ["u"]).2.map SavedFile.name = ["img_0000.png"] := by
  have hS : hasSubstr "image/png" "image" = true := by decide
  have h3 : extFromCT "image/png" = "png" := by decide
  have h4 : imgFileName 0 "png" = "img_0000.png" := by decide
  have hdl : download pngFetch ["u"]
      = (1, [SavedFile.mk "img_0000.png" (List.replicate MIN_SIZE 7)]) := by
    show downloadGo pngFetch ["u"] 0 = _
    simp [downloadGo, pngFetch, hS, h3, h4]
  constructor
  · rw [hdl]
    show galleryImages
        (applyWrites preDir [SavedFile.mk "img_0000.png" (List.replicate MIN_SIZE 7)])
      = ["img_0000.png", "stale.png"]
    have hw : applyWrites preDir [SavedFile.mk "img_0000.png" (List.replicate MIN_SIZE 7)]
        = [SavedFile.mk "stale.png" [0],
            SavedFile.mk "img_0000.png" (List.replicate MIN_SIZE 7)] := by
      show dirWrite preDir (SavedFile.mk "img_0000.png" (List.replicate MIN_SIZE 7)) = _
      simp [dirWrite, preDir]
    rw [hw]
    decide
  · rw [hdl]
    decide

/-- Claim C1 (amended): when the images directory starts empty, the gallery
listing after the run is exactly the names of the files written by the
download pass, in sorted order; a name is referenced by an img tag if and
only if the download pass saved a file of that name. With pre-existing image
files in the directory the listing also includes those, as the
counterexample shows. -/
theorem gallery_lists_saved_files (fetch : String → FetchResult) (urls : List String) :
    galleryImages (applyWrites [] (download fetch urls).2)
      = sortStrs ((download fetch urls).2.map SavedFile.name) ∧
    ∀ nm, nm ∈ galleryImages (applyWrites [] (download fetch urls).2)
      ↔ nm ∈ (download fetch urls).2.map SavedFile.name := by
  have hd2 : (download fetch urls).2 = specWrites 0 (passes fetch urls) := by
    rw [show download fetch urls = _ from downloadGo_spec fetch urls 0]
  have hnodup : ((download fetch urls).2.map SavedFile.name).Nodup := by
    rw [hd2]
    exact specWrites_names_nodup _ _
  have happly : applyWrites [] (download fetch urls).2 = (download fetch urls).2 := by
    have h := applyWrites_fresh (download fetch urls).2 []
      (fun w _ f hf => absurd hf (List.not_mem_nil f)) hnodup
    simpa using h
  have hall : ∀ f ∈ (download fetch urls).2, isGalleryImage f.name = true := by
    intro f hf
    rw [hd2] at hf
    obtain ⟨k, e, c, hmem, rfl⟩ := specWrites_mem _ _ _ hf
    exact isGalleryImage_imgFileName k e (passes_ext_mem fetch urls (c, e) hmem)
  constructor
  · unfold galleryImages
    rw [happly, List.filter_eq_self.mpr hall]
  · intro nm
    unfold galleryImages
    rw [happly, List.filter_eq_self.mpr hall, mem_sortStrs]

/-- Claim C3: the collector performs exactly SCROLL_TIMES = 15 iterations,
each pressing End and scanning the rendered markup once; the interaction
trace is the same whatever URLs the scans yield, so the loop always runs its
full fixed budget and then terminates. -/
theorem collect_runs_fixed_budget (page : PageTrace) :
    SCROLL_TIMES = 15 ∧
    (collectActions page).count BrowserAction.pressEnd = SCROLL_TIMES ∧
    (collectActions page).count BrowserAction.getContent = SCROLL_TIMES ∧
    collectActions page
      = collectActions (PageTrace.mk (fun _ => []) (fun _ => []) page.moreBtn) ∧
    collect_image_urls page = collectAfter page SCROLL_TIMES :=
  ⟨rfl, collectActionsUpTo_pressEnd page.moreBtn SCROLL_TIMES,
    collectActionsUpTo_getContent page.moreBtn SCROLL_TIMES, rfl, rfl⟩

/-- Claim C6: the accumulated URL collection is duplicate-free, grows
monotonically from one scroll iteration to the next, adding a member leaves
the set unchanged, and an iteration whose extractions are all already
present leaves the whole set unchanged. -/
theorem collect_url_set_invariants (page : PageTrace) (i : Nat) :
    (collectAfter page i).Nodup ∧
    (∀ u, u ∈ collectAfter page i → u ∈ collectAfter page (i + 1)) ∧
    (∀ urls u, u ∈ urls → setAdd urls u = urls) ∧
    ((∀ u ∈ page.pat1 i, u ∈ collectAfter page i) →
      (∀ m ∈ page.pat2 i, ∀ v, processPat2 m = some v → v ∈ collectAfter page i) →
      collectAfter page (i + 1) = collectAfter page i) := by
  refine ⟨collectAfter_nodup page i, collectAfter_mono page i, ?_, ?_⟩
  · intro urls u h
    unfold setAdd
    rw [if_pos h]
  · intro h1 h2
    show collectIteration (page.pat1 i) (page.pat2 i) (collectAfter page i)
        = collectAfter page i
    exact collectIteration_id _ _ _ h1 h2

/-- Claim C6, witness: on a page that repeats the same URL every scan, the
set after one iteration is duplicate-free, persists into the next iteration,
and the repeat leaves it unchanged. -/
theorem collect_url_set_invariants_check :
    (collectAfter pageW 1).Nodup ∧
    "http://a/x.jpg" ∈ collectAfter pageW 2 ∧
    setAdd ["x"] "x" = ["x"] ∧
    collectAfter pageW 2 = collectAfter pageW 1 :=
  ⟨(collect_url_set_invariants pageW 1).1,
    (collect_url_set_invariants pageW 1).2.1 "http://a/x.jpg" (by decide),
    (collect_url_set_invariants pageW 1).2.2.1 ["x"] "x" (by decide),
    (collect_url_set_invariants pageW 1).2.2.2 (by decide)
      (fun m hm => absurd hm (List.not_mem_nil m))⟩

/-- Claim C10: when no file of the images directory has a recognized image
extension, build_html writes nothing: the directory and any pre-existing
index.html are left exactly as they were. -/
theorem build_html_no_recognized_images (d : List SavedFile) (idx : Option String)
    (h : ∀ f ∈ d, isGalleryImage f.name = false) :
    build_html d idx = (d, idx) := by
  have hg : galleryImages d = [] := by
    unfold galleryImages
    rw [List.filter_eq_nil_iff.mpr ?_]
    · rfl
    · intro f hf
      simp [h f hf]
  simp [build_html, hg]

/-- Claim C10, witness: a directory holding only notes.txt and an existing
index.html are untouched. -/
theorem build_html_no_recognized_images_check :
    build_html [SavedFile.mk "notes.txt" []] (some "previous")
      = ([SavedFile.mk "notes.txt" []], some "previous") :=
  build_html_no_recognized_images [SavedFile.mk "notes.txt" []] (some "previous") (by decide)
